import Mathlib

/-!
Verification of the per-hop stream map of `tor-proto` (`circuit/streammap.rs`).

The Rust source owns a `HashMap<StreamId, StreamEnt>` together with a rotating
16-bit counter `next_stream_id`, and exposes `add_ent`, `get_mut`,
`end_received` and `terminate`.  We embed the map as an association list with
unique keys (the extensional behaviour of the hash map), a stream identifier as
a `Nat` (the `u16` value), and each operation as a pure function returning its
result together with the successor state.  The flow-control windows and the
half-closed-stream record live in other crates that are not part of this
repository excerpt; they are modelled from the spec's description of their
interface.
-/

deriving instance DecidableEq for Except

namespace Streammap

/-- Errors surfaced by the stream map, following `Error` variants used in
`streammap.rs` plus the window-underflow failure of the external window type. -/
inductive Error where
  /-- `Error::CircProto(msg)`: a protocol violation by the remote peer. -/
  | CircProto (msg : String)
  /-- `Error::IdRangeFull`: the stream-identifier space is exhausted. -/
  | IdRangeFull
  /-- `Error::InternalError(msg)`: an internal invariant violation (caller bug). -/
  | InternalError (msg : String)
  /-- Modelled from the spec: the failure-on-underflow of a flow-control
  window's decrement operation. -/
  | WindowUnderflow
deriving DecidableEq

/-- Modelled from the spec: a stream send window is an opaque flow-control
counter (`sendme::StreamSendWindow`, defined outside this excerpt). -/
structure StreamSendWindow where
  window : Nat
deriving DecidableEq

/-- Modelled from the spec: a stream receive window is an opaque flow-control
counter (`sendme::StreamRecvWindow`, defined outside this excerpt) with a
decrement that fails on underflow. -/
structure StreamRecvWindow where
  window : Nat
deriving DecidableEq

/-- Modelled from the spec: `decrement_n` subtracts `n` from the window and
fails when this would underflow the window's accounted capacity. -/
def StreamRecvWindow.decrement_n (w : StreamRecvWindow) (n : Nat) :
    Except Error StreamRecvWindow :=
  if n ≤ w.window then Except.ok ⟨w.window - n⟩ else Except.error Error.WindowUnderflow

/-- Modelled from the spec: the half-closed-stream record
(`halfstream::HalfStream`, defined outside this excerpt) is constructed from a
send window, a receive window and a "connected" flag. -/
structure HalfStream where
  sendw : StreamSendWindow
  recvw : StreamRecvWindow
  connected_ok : Bool
deriving DecidableEq

/-- Modelled from the spec: `HalfStream::new(send_window, recv_window, connected_ok)`. -/
def HalfStream.new (s : StreamSendWindow) (r : StreamRecvWindow) (c : Bool) : HalfStream :=
  ⟨s, r, c⟩

/-- The entry for a stream (`StreamEnt` in `streammap.rs`).  The two channel
endpoints held by an `Open` entry are opaque to the map; we carry them as
abstract tokens. -/
inductive StreamEnt where
  /-- An open stream: sink, rx, send window, receive window, dropped-cell count. -/
  | Open (sink : Nat) (rx : Nat) (send_window : StreamSendWindow)
      (recv_window : StreamRecvWindow) (dropped : Nat)
  /-- A stream for which we have received an END cell. -/
  | EndReceived
  /-- A stream for which we have sent an END cell but not yet received one. -/
  | EndSent (hs : HalfStream)
deriving DecidableEq

/-- Return value of `terminate`: whether an END cell must be sent. -/
inductive ShouldSendEnd where
  | Send
  | DontSend
deriving DecidableEq

/-- Lookup in the association list embedding of the hash map. -/
def mapFind (m : List (Nat × StreamEnt)) (id : Nat) : Option StreamEnt :=
  match m with
  | [] => none
  | (k, v) :: rest => if k = id then some v else mapFind rest id

/-- Removal of a key (`HashMap::remove` / `OccupiedEntry::remove_entry`):
since the hash map's keys are unique, removing is filtering the key out. -/
def mapRemove (m : List (Nat × StreamEnt)) (id : Nat) : List (Nat × StreamEnt) :=
  m.filter (fun p => p.1 ≠ id)

/-- In-place replacement of the value at a key (`OccupiedEntry::insert`). -/
def mapReplace (m : List (Nat × StreamEnt)) (id : Nat) (v : StreamEnt) :
    List (Nat × StreamEnt) :=
  m.map (fun p => if p.1 = id then (p.1, v) else p)

/-- A map from stream IDs to stream entries plus the rotating allocation
counter (`StreamMap` in `streammap.rs`). -/
structure StreamMap where
  m : List (Nat × StreamEnt)
  next_stream_id : Nat
deriving DecidableEq

/-- `StreamMap::new()`, parameterised by the value the random number generator
produced: the source draws `next_stream_id` uniformly from the nonzero 16-bit
values and starts with an empty entry collection. -/
def StreamMap.new (init : Nat) : StreamMap :=
  ⟨[], init⟩

/-- One probe step of `add_ent`'s allocation loop, with explicit fuel for the
`for _ in 1..=65536` bound: take the counter as candidate, advance the counter
(`wrapping_add(1)` on `u16`), skip candidate zero, insert at the first vacant
candidate. -/
def add_ent_loop (m : List (Nat × StreamEnt)) (ent : StreamEnt) :
    Nat → Nat → (Except Error Nat) × List (Nat × StreamEnt) × Nat
  | 0, next => (Except.error Error.IdRangeFull, m, next)
  | fuel + 1, next =>
    let id := next
    let next1 := (next + 1) % 65536
    if id = 0 then
      add_ent_loop m ent fuel next1
    else
      match mapFind m id with
      | some _ => add_ent_loop m ent fuel next1
      | none => (Except.ok id, (id, ent) :: m, next1)

/-- `StreamMap::add_ent`: build a fresh `Open` entry with `dropped = 0` and run
the 65536-probe allocation loop. -/
def StreamMap.add_ent (sm : StreamMap) (sink rx : Nat) (send_window : StreamSendWindow)
    (recv_window : StreamRecvWindow) : (Except Error Nat) × StreamMap :=
  let stream_ent := StreamEnt.Open sink rx send_window recv_window 0
  let r := add_ent_loop sm.m stream_ent 65536 sm.next_stream_id
  (r.1, ⟨r.2.1, r.2.2⟩)

/-- `StreamMap::get_mut`: direct lookup, no mutation. -/
def StreamMap.get_mut (sm : StreamMap) (id : Nat) : Option StreamEnt :=
  mapFind sm.m id

/-- `StreamMap::end_received`:  absent id fails (protocol violation), a second
END fails (protocol violation), an END after a locally sent END removes the
entry, and an END on an open stream replaces the entry with `EndReceived`. -/
def StreamMap.end_received (sm : StreamMap) (id : Nat) :
    (Except Error Unit) × StreamMap :=
  match mapFind sm.m id with
  | none =>
    (Except.error (Error.CircProto "Received END cell on nonexistent stream"), sm)
  | some StreamEnt.EndReceived =>
    (Except.error (Error.CircProto "Received two END cells on same stream"), sm)
  | some (StreamEnt.EndSent _) =>
    (Except.ok (), ⟨mapRemove sm.m id, sm.next_stream_id⟩)
  | some (StreamEnt.Open _ _ _ _ _) =>
    (Except.ok (), ⟨mapReplace sm.m id StreamEnt.EndReceived, sm.next_stream_id⟩)

/-- Outcome of `terminate`: an ordinary result or error carries the successor
map; the `EndSent` row panics in the source (`fatal`), so it has no successor
state. -/
inductive TerminateResult where
  | ok (r : ShouldSendEnd) (sm : StreamMap)
  | err (e : Error) (sm : StreamMap)
  | fatal
deriving DecidableEq

/-- `StreamMap::terminate`: the entry is removed up front (`self.m.remove`);
an absent id is an internal error, `EndReceived` answers `DontSend`, an open
stream folds the dropped-cell count into the receive window (propagating
underflow as an error, with the entry already removed), stores
`EndSent(HalfStream::new(send_window, recv_window, true))` back and answers
`Send`, and `EndSent` panics. -/
def StreamMap.terminate (sm : StreamMap) (id : Nat) : TerminateResult :=
  match mapFind sm.m id with
  | none =>
    TerminateResult.err
      (Error.InternalError "Somehow we terminated a nonexistent connection")
      sm
  | some ent =>
    let m1 := mapRemove sm.m id
    match ent with
    | StreamEnt.EndReceived =>
      TerminateResult.ok ShouldSendEnd.DontSend ⟨m1, sm.next_stream_id⟩
    | StreamEnt.Open _ _ send_window recv_window dropped =>
      match recv_window.decrement_n dropped with
      | Except.error e => TerminateResult.err e ⟨m1, sm.next_stream_id⟩
      | Except.ok recv_window1 =>
        let halfstream := HalfStream.new send_window recv_window1 true
        TerminateResult.ok ShouldSendEnd.Send
          ⟨(id, StreamEnt.EndSent halfstream) :: m1, sm.next_stream_id⟩
    | StreamEnt.EndSent _ => TerminateResult.fatal

/-- A candidate identifier is usable when it is nonzero and currently unused. -/
abbrev goodCandidate (m : List (Nat × StreamEnt)) (c : Nat) : Prop :=
  c ≠ 0 ∧ mapFind m c = none

/-- A sequence of `add_ent` calls starting from `sm`, call `n` taking its
arguments (sink, rx, send window, receive window) from `args n`; returns the
final map and the list of per-call results in order. -/
def addSeq (args : Nat → Nat × Nat × StreamSendWindow × StreamRecvWindow)
    (sm : StreamMap) : Nat → StreamMap × List (Except Error Nat)
  | 0 => (sm, [])
  | n + 1 =>
    let p := addSeq args sm n
    let a := args n
    let r := p.1.add_ent a.1 a.2.1 a.2.2.1 a.2.2.2
    (r.2, p.2 ++ [r.1])

/-- The identifiers returned by the successful calls of a result list. -/
def okIds (rs : List (Except Error Nat)) : List Nat :=
  rs.filterMap (fun r => match r with | Except.ok id => some id | Except.error _ => none)

/-- The states reachable from `StreamMap::new()` by the four exposed
operations.  `new` draws a nonzero 16-bit initial counter; `get_mut` takes a
mutable borrow but never changes the map, so it leaves the state fixed; a
`terminate` that panics has no successor state. -/
inductive Reachable : StreamMap → Prop where
  | new (init : Nat) (h0 : init ≠ 0) (hlt : init < 65536) :
      Reachable (StreamMap.new init)
  | add_ent (sm : StreamMap) (sink rx : Nat) (sw : StreamSendWindow)
      (rw_ : StreamRecvWindow) (h : Reachable sm) :
      Reachable (sm.add_ent sink rx sw rw_).2
  | get_mut (sm : StreamMap) (id : Nat) (h : Reachable sm) : Reachable sm
  | end_received (sm : StreamMap) (id : Nat) (h : Reachable sm) :
      Reachable (sm.end_received id).2
  | terminate_ok (sm : StreamMap) (id : Nat) (r : ShouldSendEnd) (sm2 : StreamMap)
      (h : Reachable sm) (hstep : sm.terminate id = TerminateResult.ok r sm2) :
      Reachable sm2
  | terminate_err (sm : StreamMap) (id : Nat) (e : Error) (sm2 : StreamMap)
      (h : Reachable sm) (hstep : sm.terminate id = TerminateResult.err e sm2) :
      Reachable sm2

/-- The value of the `j`-th (1-based) allocation from a fresh map whose
initial counter is `c`: the counter walks the cycle of the 65535 nonzero
16-bit values, so the `j`-th identifier is `c + j - 1` shifted one further for
every time the candidate sequence has passed `0`. -/
def eFun (c j : Nat) : Nat :=
  ((c + j - 2) % 65535) + 1

/-- The entry inserted by call `n` (0-based) of an `add_ent` sequence. -/
def specEnt (args : Nat → Nat × Nat × StreamSendWindow × StreamRecvWindow)
    (n : Nat) : StreamEnt :=
  StreamEnt.Open (args n).1 (args n).2.1 (args n).2.2.1 (args n).2.2.2 0

/-- The entry list after `n` allocations from a fresh map with counter `c`. -/
def specMapF (args : Nat → Nat × Nat × StreamSendWindow × StreamRecvWindow)
    (c : Nat) : Nat → List (Nat × StreamEnt)
  | 0 => []
  | n + 1 => (eFun c (n + 1), specEnt args n) :: specMapF args c n


/-- Whether an entry is in the `Open` state. -/
def StreamEnt.isOpen : StreamEnt → Bool
  | StreamEnt.Open _ _ _ _ _ => true
  | StreamEnt.EndReceived => false
  | StreamEnt.EndSent _ => false

/-- The entry list holding the identifiers `1, ..., n`. -/
def fullListAux : Nat → List (Nat × StreamEnt)
  | 0 => []
  | n + 1 => (n + 1, StreamEnt.EndReceived) :: fullListAux n

/-- An entry list in which every nonzero 16-bit identifier is occupied, used
to exhibit an exhausted identifier space. -/
def fullList : List (Nat × StreamEnt) :=
  fullListAux 65535

theorem mapFind_cons (k : Nat) (w : StreamEnt) (rest : List (Nat × StreamEnt)) (x : Nat) :
    mapFind ((k, w) :: rest) x = if k = x then some w else mapFind rest x := rfl

theorem mapRemove_cons (k : Nat) (w : StreamEnt) (rest : List (Nat × StreamEnt)) (id : Nat) :
    mapRemove ((k, w) :: rest) id =
      if k = id then mapRemove rest id else (k, w) :: mapRemove rest id := by
  by_cases h : k = id <;> simp [mapRemove, List.filter_cons, h]

theorem mapReplace_cons (k : Nat) (w : StreamEnt) (rest : List (Nat × StreamEnt))
    (id : Nat) (v : StreamEnt) :
    mapReplace ((k, w) :: rest) id v =
      (if k = id then (k, v) else (k, w)) :: mapReplace rest id v := by
  by_cases h : k = id <;> simp [mapReplace, h]

theorem mapFind_remove_self (m : List (Nat × StreamEnt)) (id : Nat) :
    mapFind (mapRemove m id) id = none := by
  induction m with
  | nil => rfl
  | cons p rest ih =>
    obtain ⟨k, w⟩ := p
    rw [mapRemove_cons]
    by_cases h : k = id
    · rw [if_pos h]; exact ih
    · rw [if_neg h, mapFind_cons, if_neg h]; exact ih

theorem mapFind_remove_other (m : List (Nat × StreamEnt)) (id x : Nat) (hx : x ≠ id) :
    mapFind (mapRemove m id) x = mapFind m x := by
  induction m with
  | nil => rfl
  | cons p rest ih =>
    obtain ⟨k, w⟩ := p
    rw [mapRemove_cons, mapFind_cons]
    by_cases h : k = id
    · have hkx : ¬ k = x := by rw [h]; exact fun hc => hx hc.symm
      rw [if_pos h, if_neg hkx]; exact ih
    · rw [if_neg h, mapFind_cons]
      by_cases h2 : k = x
      · rw [if_pos h2, if_pos h2]
      · rw [if_neg h2, if_neg h2]; exact ih

theorem mapFind_replace_self (m : List (Nat × StreamEnt)) (id : Nat) (v v0 : StreamEnt)
    (h : mapFind m id = some v0) :
    mapFind (mapReplace m id v) id = some v := by
  induction m with
  | nil => simp [mapFind] at h
  | cons p rest ih =>
    obtain ⟨k, w⟩ := p
    rw [mapFind_cons] at h
    rw [mapReplace_cons]
    by_cases hp : k = id
    · rw [if_pos hp, mapFind_cons, if_pos hp]
    · rw [if_neg hp] at h
      rw [if_neg hp, mapFind_cons, if_neg hp]
      exact ih h

theorem mapFind_replace_other (m : List (Nat × StreamEnt)) (id x : Nat) (v : StreamEnt)
    (hx : x ≠ id) :
    mapFind (mapReplace m id v) x = mapFind m x := by
  induction m with
  | nil => rfl
  | cons p rest ih =>
    obtain ⟨k, w⟩ := p
    rw [mapReplace_cons, mapFind_cons]
    by_cases hp : k = id
    · have hkx : ¬ k = x := by rw [hp]; exact fun hc => hx hc.symm
      rw [if_pos hp, mapFind_cons, if_neg hkx, if_neg hkx]
      exact ih
    · rw [if_neg hp, mapFind_cons]
      by_cases h2 : k = x
      · rw [if_pos h2, if_pos h2]
      · rw [if_neg h2, if_neg h2]; exact ih

theorem mapFind_some_mem (m : List (Nat × StreamEnt)) (id : Nat) (v : StreamEnt)
    (h : mapFind m id = some v) : (id, v) ∈ m := by
  induction m with
  | nil => simp [mapFind] at h
  | cons p rest ih =>
    obtain ⟨k, w⟩ := p
    rw [mapFind_cons] at h
    by_cases hp : k = id
    · rw [if_pos hp] at h
      rw [Option.some_inj] at h
      rw [← hp, ← h]
      exact List.mem_cons_self _ _
    · rw [if_neg hp] at h
      exact List.mem_cons_of_mem _ (ih h)

theorem mem_mapRemove (m : List (Nat × StreamEnt)) (id : Nat) (p : Nat × StreamEnt)
    (h : p ∈ mapRemove m id) : p ∈ m :=
  List.mem_of_mem_filter h

theorem mem_mapReplace (m : List (Nat × StreamEnt)) (id : Nat) (v : StreamEnt)
    (p : Nat × StreamEnt) (h : p ∈ mapReplace m id v) :
    ∃ q ∈ m, p.1 = q.1 := by
  obtain ⟨q, hq, heq⟩ := List.mem_map.mp h
  refine ⟨q, hq, ?_⟩
  obtain ⟨k, w⟩ := q
  by_cases h1 : k = id
  · rw [if_pos h1] at heq
    rw [← heq]
  · rw [if_neg h1] at heq
    rw [← heq]

theorem mapFind_mem_isSome (m : List (Nat × StreamEnt)) (id : Nat) (v : StreamEnt)
    (h : (id, v) ∈ m) : (mapFind m id).isSome := by
  induction m with
  | nil => simp at h
  | cons p rest ih =>
    obtain ⟨k, w⟩ := p
    rw [mapFind_cons]
    rcases List.mem_cons.mp h with h1 | h1
    · have hk : k = id := (congrArg Prod.fst h1.symm)
      rw [if_pos hk]
      rfl
    · by_cases hp : k = id
      · rw [if_pos hp]; rfl
      · rw [if_neg hp]; exact ih h1

theorem add_ent_loop_step_good (m : List (Nat × StreamEnt)) (ent : StreamEnt)
    (fuel next : Nat) (h : goodCandidate m next) :
    add_ent_loop m ent (fuel + 1) next =
      (Except.ok next, (next, ent) :: m, (next + 1) % 65536) := by
  simp [add_ent_loop, h.1, h.2]

theorem add_ent_loop_step_bad (m : List (Nat × StreamEnt)) (ent : StreamEnt)
    (fuel next : Nat) (h : ¬ goodCandidate m next) :
    add_ent_loop m ent (fuel + 1) next =
      add_ent_loop m ent fuel ((next + 1) % 65536) := by
  by_cases h0 : next = 0
  · simp [add_ent_loop, h0]
  · have hfind : ∃ v, mapFind m next = some v := by
      rcases hv : mapFind m next with _ | v
      · exact absurd ⟨h0, hv⟩ h
      · exact ⟨v, rfl⟩
    obtain ⟨v, hv⟩ := hfind
    simp [add_ent_loop, h0, hv]

/-- Characterisation of the allocation loop: it either succeeds on a nonzero,
vacant identifier (inserting exactly that entry and leaving the counter one
past the identifier), or fails with `IdRangeFull` leaving the entry list
untouched. -/
theorem add_ent_loop_char (m : List (Nat × StreamEnt)) (ent : StreamEnt) :
    ∀ fuel next,
      (∃ id, add_ent_loop m ent fuel next =
          (Except.ok id, (id, ent) :: m, (id + 1) % 65536) ∧
          id ≠ 0 ∧ mapFind m id = none ∧ (id = next ∨ id < 65536)) ∨
      ((add_ent_loop m ent fuel next).1 = Except.error Error.IdRangeFull ∧
        (add_ent_loop m ent fuel next).2.1 = m) := by
  intro fuel
  induction fuel with
  | zero => intro next; right; simp [add_ent_loop]
  | succ f ih =>
    intro next
    by_cases h : goodCandidate m next
    · left
      exact ⟨next, add_ent_loop_step_good m ent f next h, h.1, h.2, Or.inl rfl⟩
    · rw [add_ent_loop_step_bad m ent f next h]
      rcases ih ((next + 1) % 65536) with ⟨id, heq, hne, hvac, hbd⟩ | hr
      · left
        refine ⟨id, heq, hne, hvac, Or.inr ?_⟩
        rcases hbd with h1 | h1
        · rw [h1]
          exact Nat.mod_lt _ (by omega)
        · exact h1
      · right
        exact hr

/-- If the loop fails, it fails with `IdRangeFull`, leaves the entry list
unchanged, and has advanced the counter once per unit of fuel. -/
theorem add_ent_loop_error_inv (m : List (Nat × StreamEnt)) (ent : StreamEnt) :
    ∀ fuel next, next < 65536 → ∀ e,
      (add_ent_loop m ent fuel next).1 = Except.error e →
      add_ent_loop m ent fuel next =
        (Except.error Error.IdRangeFull, m, (next + fuel) % 65536) := by
  intro fuel
  induction fuel with
  | zero =>
    intro next hlt e _
    simp [add_ent_loop, Nat.mod_eq_of_lt hlt]
  | succ f ih =>
    intro next hlt e herr
    by_cases h : goodCandidate m next
    · rw [add_ent_loop_step_good m ent f next h] at herr
      simp at herr
    · rw [add_ent_loop_step_bad m ent f next h] at herr ⊢
      have h1 : (next + 1) % 65536 < 65536 := Nat.mod_lt _ (by omega)
      rw [ih ((next + 1) % 65536) h1 e herr]
      have : ((next + 1) % 65536 + f) % 65536 = (next + (f + 1)) % 65536 := by
        rw [Nat.mod_add_mod]
        ring_nf
      rw [this]

/-- If every candidate probed within the fuel bound is unusable, the loop
fails with `IdRangeFull` and the counter has advanced once per probe. -/
theorem add_ent_loop_all_bad (m : List (Nat × StreamEnt)) (ent : StreamEnt) :
    ∀ fuel next, next < 65536 →
      (∀ j, j < fuel → ¬ goodCandidate m ((next + j) % 65536)) →
      add_ent_loop m ent fuel next =
        (Except.error Error.IdRangeFull, m, (next + fuel) % 65536) := by
  intro fuel
  induction fuel with
  | zero =>
    intro next hlt _
    simp [add_ent_loop, Nat.mod_eq_of_lt hlt]
  | succ f ih =>
    intro next hlt hbad
    have h0 : ¬ goodCandidate m next := by
      have := hbad 0 (by omega)
      simpa [Nat.mod_eq_of_lt hlt] using this
    rw [add_ent_loop_step_bad m ent f next h0]
    have h1 : (next + 1) % 65536 < 65536 := Nat.mod_lt _ (by omega)
    have hbad1 : ∀ j, j < f → ¬ goodCandidate m (((next + 1) % 65536 + j) % 65536) := by
      intro j hj
      have := hbad (j + 1) (by omega)
      rw [Nat.mod_add_mod]
      have harith : next + 1 + j = next + (j + 1) := by ring
      rw [harith]
      exact this
    rw [ih ((next + 1) % 65536) h1 hbad1]
    have : ((next + 1) % 65536 + f) % 65536 = (next + (f + 1)) % 65536 := by
      rw [Nat.mod_add_mod]
      ring_nf
    rw [this]

/-- If the probe at offset `j0` is the first usable candidate, the loop
returns exactly that identifier, inserts the entry, and leaves the counter
one past the identifier. -/
theorem add_ent_loop_first_good (m : List (Nat × StreamEnt)) (ent : StreamEnt) :
    ∀ j0 fuel next, next < 65536 → j0 < fuel →
      goodCandidate m ((next + j0) % 65536) →
      (∀ j, j < j0 → ¬ goodCandidate m ((next + j) % 65536)) →
      add_ent_loop m ent fuel next =
        (Except.ok ((next + j0) % 65536), ((next + j0) % 65536, ent) :: m,
          (next + j0 + 1) % 65536) := by
  intro j0
  induction j0 with
  | zero =>
    intro fuel next hlt hj0 hgood _
    obtain ⟨f, rfl⟩ : ∃ f, fuel = f + 1 := ⟨fuel - 1, by omega⟩
    have hx : (next + 0) % 65536 = next := by simpa using Nat.mod_eq_of_lt hlt
    rw [hx] at hgood
    rw [add_ent_loop_step_good m ent f next hgood, hx]
  | succ k ih =>
    intro fuel next hlt hj0 hgood hbad
    obtain ⟨f, rfl⟩ : ∃ f, fuel = f + 1 := ⟨fuel - 1, by omega⟩
    have h0 : ¬ goodCandidate m next := by
      have := hbad 0 (by omega)
      simpa [Nat.mod_eq_of_lt hlt] using this
    rw [add_ent_loop_step_bad m ent f next h0]
    have h1 : (next + 1) % 65536 < 65536 := Nat.mod_lt _ (by omega)
    have hshift : ∀ j, ((next + 1) % 65536 + j) % 65536 = (next + (j + 1)) % 65536 := by
      intro j
      rw [Nat.mod_add_mod]
      have : next + 1 + j = next + (j + 1) := by ring
      rw [this]
    have hgood1 : goodCandidate m (((next + 1) % 65536 + k) % 65536) := by
      rw [hshift k]; exact hgood
    have hbad1 : ∀ j, j < k → ¬ goodCandidate m (((next + 1) % 65536 + j) % 65536) := by
      intro j hj
      rw [hshift j]
      exact hbad (j + 1) (by omega)
    rw [ih f ((next + 1) % 65536) h1 (by omega) hgood1 hbad1]
    rw [hshift k]
    have : ((next + 1) % 65536 + k + 1) % 65536 = (next + (k + 1) + 1) % 65536 := by
      conv_lhs => rw [Nat.add_assoc, Nat.mod_add_mod]
      have : next + 1 + (k + 1) = next + (k + 1) + 1 := by ring
      rw [this]
    rw [this]

/-- Lifting of the loop characterisation to `add_ent`: either a fresh nonzero
identifier is allocated and exactly one `Open` entry with `dropped = 0` is
inserted, or the call fails with `IdRangeFull` leaving the entries untouched. -/
theorem add_ent_char (sm : StreamMap) (sink rx : Nat) (sw : StreamSendWindow)
    (rw_ : StreamRecvWindow) :
    (∃ id, (sm.add_ent sink rx sw rw_).1 = Except.ok id ∧ id ≠ 0 ∧
      mapFind sm.m id = none ∧
      (sm.add_ent sink rx sw rw_).2.m =
        (id, StreamEnt.Open sink rx sw rw_ 0) :: sm.m ∧
      (sm.add_ent sink rx sw rw_).2.next_stream_id = (id + 1) % 65536 ∧
      (id = sm.next_stream_id ∨ id < 65536)) ∨
    ((sm.add_ent sink rx sw rw_).1 = Except.error Error.IdRangeFull ∧
      (sm.add_ent sink rx sw rw_).2.m = sm.m) := by
  rcases add_ent_loop_char sm.m (StreamEnt.Open sink rx sw rw_ 0) 65536
      sm.next_stream_id with ⟨id, heq, hne, hvac, hbd⟩ | ⟨herr, hm⟩
  · left
    exact ⟨id, by simp [StreamMap.add_ent, heq], hne, hvac,
      by simp [StreamMap.add_ent, heq], by simp [StreamMap.add_ent, heq], hbd⟩
  · right
    exact ⟨by simpa [StreamMap.add_ent] using herr, by simpa [StreamMap.add_ent] using hm⟩

/-- `add_ent` never disturbs an existing entry. -/
theorem add_ent_preserves_find (sm : StreamMap) (sink rx : Nat) (sw : StreamSendWindow)
    (rw_ : StreamRecvWindow) (x : Nat) (v : StreamEnt) (h : mapFind sm.m x = some v) :
    mapFind (sm.add_ent sink rx sw rw_).2.m x = some v := by
  rcases add_ent_char sm sink rx sw rw_ with ⟨id, _, _, hvac, hm, _, _⟩ | ⟨_, hm⟩
  · rw [hm, mapFind_cons]
    have hne : ¬ id = x := fun hc => by rw [hc] at hvac; rw [h] at hvac; cases hvac
    rw [if_neg hne]
    exact h
  · rw [hm]; exact h

theorem okIds_append (rs1 rs2 : List (Except Error Nat)) :
    okIds (rs1 ++ rs2) = okIds rs1 ++ okIds rs2 :=
  List.filterMap_append ..

/-- Invariant carried along an `add_ent` sequence: the successful identifiers
are distinct, nonzero, and all live in the current map. -/
theorem addSeq_invariant (args : Nat → Nat × Nat × StreamSendWindow × StreamRecvWindow)
    (sm : StreamMap) : ∀ n,
    (okIds (addSeq args sm n).2).Nodup ∧
    (∀ id ∈ okIds (addSeq args sm n).2, id ≠ 0) ∧
    (∀ id ∈ okIds (addSeq args sm n).2, (mapFind (addSeq args sm n).1.m id).isSome) := by
  intro n
  induction n with
  | zero => refine ⟨List.nodup_nil, ?_, ?_⟩ <;> intro id h <;> simp [addSeq, okIds] at h
  | succ k ih =>
    obtain ⟨hnodup, hnz, hlive⟩ := ih
    have hstep : addSeq args sm (k + 1) =
        ((((addSeq args sm k).1.add_ent (args k).1 (args k).2.1 (args k).2.2.1
            (args k).2.2.2).2),
         (addSeq args sm k).2 ++
           [((addSeq args sm k).1.add_ent (args k).1 (args k).2.1 (args k).2.2.1
            (args k).2.2.2).1]) := rfl
    rcases add_ent_char (addSeq args sm k).1 (args k).1 (args k).2.1 (args k).2.2.1
        (args k).2.2.2 with ⟨id, hok, hne, hvac, hm, _, _⟩ | ⟨herr, hm⟩
    · have hids : okIds (addSeq args sm (k + 1)).2 =
          okIds (addSeq args sm k).2 ++ [id] := by
        rw [hstep, okIds_append, hok]
        rfl
      have hnotmem : id ∉ okIds (addSeq args sm k).2 := by
        intro hmem
        have := hlive id hmem
        rw [hvac] at this
        cases this
      refine ⟨?_, ?_, ?_⟩
      · rw [hids]
        exact List.Nodup.append hnodup (List.nodup_singleton id)
          (List.disjoint_singleton.mpr hnotmem)
      · intro x hx
        rw [hids] at hx
        rcases List.mem_append.mp hx with h1 | h1
        · exact hnz x h1
        · rw [List.mem_singleton.mp h1]; exact hne
      · intro x hx
        rw [hids] at hx
        rw [hstep]
        simp only
        rcases List.mem_append.mp hx with h1 | h1
        · have := hlive x h1
          rcases hv : mapFind (addSeq args sm k).1.m x with _ | v
          · rw [hv] at this; cases this
          · rw [add_ent_preserves_find _ _ _ _ _ _ _ hv]; rfl
        · rw [List.mem_singleton.mp h1]
          rw [hm, mapFind_cons, if_pos rfl]
          rfl
    · have hids : okIds (addSeq args sm (k + 1)).2 = okIds (addSeq args sm k).2 := by
        rw [hstep, okIds_append, herr]
        simp [okIds]
      refine ⟨by rw [hids]; exact hnodup, ?_, ?_⟩
      · intro x hx; rw [hids] at hx; exact hnz x hx
      · intro x hx
        rw [hids] at hx
        rw [hstep]
        simp only
        rw [hm]
        exact hlive x hx

theorem eFun_pos (c j : Nat) : 1 ≤ eFun c j := Nat.le_add_left 1 _

theorem eFun_le (c j : Nat) : eFun c j ≤ 65535 := by
  unfold eFun
  omega

theorem specMapF_find_none (args : Nat → Nat × Nat × StreamSendWindow × StreamRecvWindow)
    (c : Nat) : ∀ n x, (∀ j, 1 ≤ j → j ≤ n → x ≠ eFun c j) →
    mapFind (specMapF args c n) x = none := by
  intro n
  induction n with
  | zero => intro x _; rfl
  | succ k ih =>
    intro x hx
    rw [specMapF, mapFind_cons]
    have hne : ¬ eFun c (k + 1) = x :=
      fun hc => hx (k + 1) (by omega) (by omega) hc.symm
    rw [if_neg hne]
    exact ih x (fun j h1 h2 => hx j h1 (by omega))

theorem eFun_ne (c : Nat) (hc1 : 1 ≤ c) (hc : c ≤ 65535) (n j : Nat)
    (h1 : 1 ≤ j) (h2 : j ≤ n) (h3 : n + 1 ≤ 65535) :
    eFun c (n + 1) ≠ eFun c j := by
  unfold eFun
  omega

theorem specMapF_vacant (args : Nat → Nat × Nat × StreamSendWindow × StreamRecvWindow)
    (c : Nat) (hc1 : 1 ≤ c) (hc : c ≤ 65535) (n : Nat) (h3 : n + 1 ≤ 65535) :
    mapFind (specMapF args c n) (eFun c (n + 1)) = none :=
  specMapF_find_none args c n _ (fun j hj1 hj2 => eFun_ne c hc1 hc n j hj1 hj2 h3)

/-- Single allocation step from the invariant state reached after `n`
successful allocations out of a fresh map. -/
theorem add_ent_fresh_step (args : Nat → Nat × Nat × StreamSendWindow × StreamRecvWindow)
    (c : Nat) (hc1 : 1 ≤ c) (hc : c ≤ 65535) (n : Nat) (hn : n + 1 ≤ 65535) (t : Nat)
    (htdef : t = if n = 0 then c else (eFun c n + 1) % 65536) :
    (StreamMap.mk (specMapF args c n) t).add_ent
        (args n).1 (args n).2.1 (args n).2.2.1 (args n).2.2.2 =
      (Except.ok (eFun c (n + 1)),
        ⟨specMapF args c (n + 1), (eFun c (n + 1) + 1) % 65536⟩) := by
  have hvac := specMapF_vacant args c hc1 hc n hn
  have hEpos : 1 ≤ eFun c (n + 1) := eFun_pos c (n + 1)
  by_cases h0 : n = 0
  · subst h0
    have hE : eFun c 1 = c := by unfold eFun; omega
    have htc : t = c := by rw [htdef, if_pos rfl]
    have hgood : goodCandidate (specMapF args c 0) ((c + 0) % 65536) := by
      have hmod : (c + 0) % 65536 = c := by omega
      rw [hmod]
      exact ⟨by omega, by rw [← hE]; exact hvac⟩
    have hloop := add_ent_loop_first_good (specMapF args c 0) (specEnt args 0) 0 65536
      c (by omega) (by omega) hgood (by intro j hj; omega)
    have hloop2 : add_ent_loop (specMapF args c 0) (specEnt args 0) 65536 c =
        (Except.ok (eFun c 1), (eFun c 1, specEnt args 0) :: specMapF args c 0,
          (eFun c 1 + 1) % 65536) := by
      rw [hloop]
      have h1 : (c + 0) % 65536 = eFun c 1 := by omega
      have h2 : (c + 0 + 1) % 65536 = (eFun c 1 + 1) % 65536 := by rw [hE]
      rw [h1, h2]
    simp only [StreamMap.add_ent]
    rw [show (StreamEnt.Open (args 0).1 (args 0).2.1 (args 0).2.2.1 (args 0).2.2.2 0) =
        specEnt args 0 from rfl]
    rw [htc, hloop2]
    rfl
  · have hn1 : 1 ≤ n := by omega
    have hElo := eFun_pos c n
    have hEhi := eFun_le c n
    have htc : t = (eFun c n + 1) % 65536 := by rw [htdef, if_neg h0]
    rcases Nat.lt_or_ge (eFun c n) 65535 with hElt | hEge
    · -- counter is eFun c n + 1, which is the next identifier
      have hE : eFun c (n + 1) = eFun c n + 1 := by
        have h := hElt
        unfold eFun at h ⊢
        omega
      have ht : t = eFun c n + 1 := by rw [htc]; omega
      have hgood : goodCandidate (specMapF args c n) ((eFun c n + 1 + 0) % 65536) := by
        have hmod : (eFun c n + 1 + 0) % 65536 = eFun c (n + 1) := by
          rw [hE]; omega
        rw [hmod]
        exact ⟨by omega, hvac⟩
      have hloop := add_ent_loop_first_good (specMapF args c n) (specEnt args n) 0 65536
        (eFun c n + 1) (by omega) (by omega) hgood (by intro j hj; omega)
      have hloop2 : add_ent_loop (specMapF args c n) (specEnt args n) 65536
          (eFun c n + 1) =
          (Except.ok (eFun c (n + 1)),
            (eFun c (n + 1), specEnt args n) :: specMapF args c n,
            (eFun c (n + 1) + 1) % 65536) := by
        rw [hloop]
        have h1 : (eFun c n + 1 + 0) % 65536 = eFun c (n + 1) := by rw [hE]; omega
        have h2 : (eFun c n + 1 + 0 + 1) % 65536 = (eFun c (n + 1) + 1) % 65536 := by
          rw [hE]
        rw [h1, h2]
      simp only [StreamMap.add_ent]
      rw [show (StreamEnt.Open (args n).1 (args n).2.1 (args n).2.2.1 (args n).2.2.2 0) =
          specEnt args n from rfl]
      rw [ht, hloop2]
      rfl
    · -- counter has wrapped to 0; the zero candidate is skipped
      have hE65535 : eFun c n = 65535 := by omega
      have hE : eFun c (n + 1) = 1 := by
        have h := hE65535
        unfold eFun at h ⊢
        omega
      have ht : t = 0 := by rw [htc, hE65535]
      have hbad0 : ¬ goodCandidate (specMapF args c n) ((0 + 0) % 65536) := by
        intro hg
        exact hg.1 (by omega)
      have hgood : goodCandidate (specMapF args c n) ((0 + 1) % 65536) := by
        have hmod : (0 + 1) % 65536 = eFun c (n + 1) := by rw [hE]
        rw [hmod]
        exact ⟨by omega, hvac⟩
      have hloop := add_ent_loop_first_good (specMapF args c n) (specEnt args n) 1 65536
        0 (by omega) (by omega) hgood (by
          intro j hj
          have hj0 : j = 0 := by omega
          rw [hj0]
          exact hbad0)
      have hloop2 : add_ent_loop (specMapF args c n) (specEnt args n) 65536 0 =
          (Except.ok (eFun c (n + 1)),
            (eFun c (n + 1), specEnt args n) :: specMapF args c n,
            (eFun c (n + 1) + 1) % 65536) := by
        rw [hloop]
        have h1 : (0 + 1) % 65536 = eFun c (n + 1) := by rw [hE]
        have h2 : (0 + 1 + 1) % 65536 = (eFun c (n + 1) + 1) % 65536 := by rw [hE]
        rw [h1, h2]
      simp only [StreamMap.add_ent]
      rw [show (StreamEnt.Open (args n).1 (args n).2.1 (args n).2.2.1 (args n).2.2.2 0) =
          specEnt args n from rfl]
      rw [ht, hloop2]
      rfl

/-- Full description of a run of successful allocations from a fresh map:
after `n ≤ 65535` calls the entry list is exactly the allocated identifiers
and the results are exactly `eFun c 1, ..., eFun c n`, all successful. -/
theorem addSeq_fresh (args : Nat → Nat × Nat × StreamSendWindow × StreamRecvWindow)
    (c : Nat) (hc1 : 1 ≤ c) (hc : c ≤ 65535) : ∀ n, n ≤ 65535 →
    addSeq args (StreamMap.new c) n =
      (⟨specMapF args c n, if n = 0 then c else (eFun c n + 1) % 65536⟩,
        (List.range n).map (fun j => Except.ok (eFun c (j + 1)))) := by
  intro n
  induction n with
  | zero => intro _; rfl
  | succ k ih =>
    intro hk
    have hik := ih (by omega)
    have hstep : addSeq args (StreamMap.new c) (k + 1) =
        ((((addSeq args (StreamMap.new c) k).1.add_ent (args k).1 (args k).2.1
            (args k).2.2.1 (args k).2.2.2).2),
         (addSeq args (StreamMap.new c) k).2 ++
           [((addSeq args (StreamMap.new c) k).1.add_ent (args k).1 (args k).2.1
            (args k).2.2.1 (args k).2.2.2).1]) := rfl
    rw [hstep, hik]
    simp only
    rw [add_ent_fresh_step args c hc1 hc k (by omega) _ rfl]
    simp only
    rw [Prod.mk.injEq]
    constructor
    · rw [if_neg (Nat.succ_ne_zero k)]
    · rw [List.range_succ, List.map_append, List.map_singleton]

/-- C1: `terminate(id)` follows the four-row table: an absent id fails with an
internal-invariant-violation error; an `EndReceived` entry is removed and the
call returns `DontSend`; an `Open` entry folds the dropped-cell count into the
receive window (propagating underflow as an error), builds a half-closed-stream
record from the remaining windows and a connected flag, replaces the entry with
`EndSent(record)`, and returns `Send`; an `EndSent` entry is a fatal logic
fault. -/
theorem terminate_table (sm : StreamMap) (id : Nat) :
    (mapFind sm.m id = none →
      sm.terminate id =
        TerminateResult.err
          (Error.InternalError "Somehow we terminated a nonexistent connection") sm) ∧
    (mapFind sm.m id = some StreamEnt.EndReceived →
      sm.terminate id =
        TerminateResult.ok ShouldSendEnd.DontSend ⟨mapRemove sm.m id, sm.next_stream_id⟩) ∧
    (∀ sink rx sw rcw d, mapFind sm.m id = some (StreamEnt.Open sink rx sw rcw d) →
      (∀ e, rcw.decrement_n d = Except.error e →
        sm.terminate id =
          TerminateResult.err e ⟨mapRemove sm.m id, sm.next_stream_id⟩) ∧
      (∀ rcw1, rcw.decrement_n d = Except.ok rcw1 →
        sm.terminate id =
          TerminateResult.ok ShouldSendEnd.Send
            ⟨(id, StreamEnt.EndSent (HalfStream.new sw rcw1 true)) :: mapRemove sm.m id,
              sm.next_stream_id⟩)) ∧
    (∀ hs, mapFind sm.m id = some (StreamEnt.EndSent hs) →
      sm.terminate id = TerminateResult.fatal) := by
  refine ⟨?_, ?_, ?_, ?_⟩
  · intro h
    simp [StreamMap.terminate, h]
  · intro h
    simp [StreamMap.terminate, h]
  · intro sink rx sw rcw d h
    constructor
    · intro e hdec
      simp [StreamMap.terminate, h, hdec]
    · intro rcw1 hdec
      simp [StreamMap.terminate, h, hdec, HalfStream.new]
  · intro hs h
    simp [StreamMap.terminate, h]

theorem terminate_table_witness :
    ((StreamMap.mk [] 7).terminate 3 =
      TerminateResult.err
        (Error.InternalError "Somehow we terminated a nonexistent connection")
        (StreamMap.mk [] 7)) ∧
    ((StreamMap.mk [(4, StreamEnt.EndReceived)] 7).terminate 4 =
      TerminateResult.ok ShouldSendEnd.DontSend
        ⟨mapRemove [(4, StreamEnt.EndReceived)] 4, 7⟩) ∧
    ((StreamMap.mk [(5, StreamEnt.Open 1 2 ⟨10⟩ ⟨0⟩ 3)] 7).terminate 5 =
      TerminateResult.err Error.WindowUnderflow
        ⟨mapRemove [(5, StreamEnt.Open 1 2 ⟨10⟩ ⟨0⟩ 3)] 5, 7⟩) ∧
    ((StreamMap.mk [(6, StreamEnt.Open 1 2 ⟨10⟩ ⟨9⟩ 3)] 7).terminate 6 =
      TerminateResult.ok ShouldSendEnd.Send
        ⟨(6, StreamEnt.EndSent (HalfStream.new ⟨10⟩ ⟨6⟩ true)) ::
          mapRemove [(6, StreamEnt.Open 1 2 ⟨10⟩ ⟨9⟩ 3)] 6, 7⟩) ∧
    ((StreamMap.mk [(8, StreamEnt.EndSent (HalfStream.new ⟨1⟩ ⟨2⟩ true))] 7).terminate 8 =
      TerminateResult.fatal) :=
  ⟨(terminate_table ⟨[], 7⟩ 3).1 rfl,
   (terminate_table ⟨[(4, StreamEnt.EndReceived)], 7⟩ 4).2.1 rfl,
   ((terminate_table ⟨[(5, StreamEnt.Open 1 2 ⟨10⟩ ⟨0⟩ 3)], 7⟩ 5).2.2.1
     1 2 ⟨10⟩ ⟨0⟩ 3 rfl).1 Error.WindowUnderflow rfl,
   ((terminate_table ⟨[(6, StreamEnt.Open 1 2 ⟨10⟩ ⟨9⟩ 3)], 7⟩ 6).2.2.1
     1 2 ⟨10⟩ ⟨9⟩ 3 rfl).2 ⟨6⟩ rfl,
   (terminate_table ⟨[(8, StreamEnt.EndSent (HalfStream.new ⟨1⟩ ⟨2⟩ true))], 7⟩ 8).2.2.2
     (HalfStream.new ⟨1⟩ ⟨2⟩ true) rfl⟩

/-- C2: when `terminate` on an `Open` entry fails because folding the
dropped-cell count underflows the receive window, the entry has already been
removed and is not restored: afterwards `get_mut(id)` returns `None`. -/
theorem terminate_underflow_not_atomic (sm : StreamMap) (id : Nat) (sink rx : Nat)
    (sw : StreamSendWindow) (rcw : StreamRecvWindow) (d : Nat)
    (hfind : mapFind sm.m id = some (StreamEnt.Open sink rx sw rcw d))
    (e : Error) (hdec : rcw.decrement_n d = Except.error e) :
    sm.terminate id = TerminateResult.err e ⟨mapRemove sm.m id, sm.next_stream_id⟩ ∧
    (StreamMap.mk (mapRemove sm.m id) sm.next_stream_id).get_mut id = none := by
  constructor
  · simp [StreamMap.terminate, hfind, hdec]
  · simp [StreamMap.get_mut, mapFind_remove_self]

theorem terminate_underflow_not_atomic_witness :
    (StreamMap.mk [(5, StreamEnt.Open 1 2 ⟨10⟩ ⟨0⟩ 3)] 7).terminate 5 =
      TerminateResult.err Error.WindowUnderflow
        ⟨mapRemove [(5, StreamEnt.Open 1 2 ⟨10⟩ ⟨0⟩ 3)] 5, 7⟩ ∧
    (StreamMap.mk (mapRemove [(5, StreamEnt.Open 1 2 ⟨10⟩ ⟨0⟩ 3)] 5) 7).get_mut 5 = none :=
  terminate_underflow_not_atomic ⟨[(5, StreamEnt.Open 1 2 ⟨10⟩ ⟨0⟩ 3)], 7⟩ 5
    1 2 ⟨10⟩ ⟨0⟩ 3 rfl Error.WindowUnderflow rfl

/-- C3: `end_received(id)` fails with a protocol-violation error exactly when
the id is absent ("END cell on nonexistent stream") or the entry is
`EndReceived` ("duplicate END cell"), leaving the map unchanged in both failure
cases; an `EndSent` entry is removed with success; an `Open` entry is replaced
with `EndReceived` with success. -/
theorem end_received_table (sm : StreamMap) (id : Nat) :
    (mapFind sm.m id = none →
      sm.end_received id =
        (Except.error (Error.CircProto "Received END cell on nonexistent stream"), sm)) ∧
    (mapFind sm.m id = some StreamEnt.EndReceived →
      sm.end_received id =
        (Except.error (Error.CircProto "Received two END cells on same stream"), sm)) ∧
    (∀ hs, mapFind sm.m id = some (StreamEnt.EndSent hs) →
      sm.end_received id = (Except.ok (), ⟨mapRemove sm.m id, sm.next_stream_id⟩)) ∧
    (∀ sink rx sw rcw d, mapFind sm.m id = some (StreamEnt.Open sink rx sw rcw d) →
      sm.end_received id =
        (Except.ok (),
          ⟨mapReplace sm.m id StreamEnt.EndReceived, sm.next_stream_id⟩)) := by
  refine ⟨?_, ?_, ?_, ?_⟩
  · intro h
    simp [StreamMap.end_received, h]
  · intro h
    simp [StreamMap.end_received, h]
  · intro hs h
    simp [StreamMap.end_received, h]
  · intro sink rx sw rcw d h
    simp [StreamMap.end_received, h]

theorem end_received_table_witness :
    ((StreamMap.mk [] 7).end_received 3 =
      (Except.error (Error.CircProto "Received END cell on nonexistent stream"),
        StreamMap.mk [] 7)) ∧
    ((StreamMap.mk [(4, StreamEnt.EndReceived)] 7).end_received 4 =
      (Except.error (Error.CircProto "Received two END cells on same stream"),
        StreamMap.mk [(4, StreamEnt.EndReceived)] 7)) ∧
    ((StreamMap.mk [(8, StreamEnt.EndSent (HalfStream.new ⟨1⟩ ⟨2⟩ true))] 7).end_received 8 =
      (Except.ok (),
        ⟨mapRemove [(8, StreamEnt.EndSent (HalfStream.new ⟨1⟩ ⟨2⟩ true))] 8, 7⟩)) ∧
    ((StreamMap.mk [(6, StreamEnt.Open 1 2 ⟨10⟩ ⟨9⟩ 3)] 7).end_received 6 =
      (Except.ok (),
        ⟨mapReplace [(6, StreamEnt.Open 1 2 ⟨10⟩ ⟨9⟩ 3)] 6 StreamEnt.EndReceived, 7⟩)) :=
  ⟨(end_received_table ⟨[], 7⟩ 3).1 rfl,
   (end_received_table ⟨[(4, StreamEnt.EndReceived)], 7⟩ 4).2.1 rfl,
   (end_received_table ⟨[(8, StreamEnt.EndSent (HalfStream.new ⟨1⟩ ⟨2⟩ true))], 7⟩ 8).2.2.1
     (HalfStream.new ⟨1⟩ ⟨2⟩ true) rfl,
   (end_received_table ⟨[(6, StreamEnt.Open 1 2 ⟨10⟩ ⟨9⟩ 3)], 7⟩ 6).2.2.2
     1 2 ⟨10⟩ ⟨9⟩ 3 rfl⟩

/-- C9: the half-closed-stream record that `terminate` builds from an `Open`
entry always carries `connected_ok = true`: whenever `terminate` succeeds with
`Send`, the stored `EndSent` record has its connected flag set to `true`. -/
theorem terminate_connected_flag_true (sm : StreamMap) (id : Nat) (sm2 : StreamMap)
    (h : sm.terminate id = TerminateResult.ok ShouldSendEnd.Send sm2) :
    ∃ hs, mapFind sm2.m id = some (StreamEnt.EndSent hs) ∧ hs.connected_ok = true := by
  rcases hfind : mapFind sm.m id with _ | ent
  · simp [StreamMap.terminate, hfind] at h
  · cases ent with
    | EndReceived => simp [StreamMap.terminate, hfind] at h
    | EndSent hs => simp [StreamMap.terminate, hfind] at h
    | Open sink rx sw rcw d =>
      rcases hdec : rcw.decrement_n d with e | rcw1
      · simp [StreamMap.terminate, hfind, hdec] at h
      · simp only [StreamMap.terminate, hfind, hdec] at h
        have hm : sm2 =
            ⟨(id, StreamEnt.EndSent (HalfStream.new sw rcw1 true)) :: mapRemove sm.m id,
              sm.next_stream_id⟩ := by
          cases h
          rfl
        refine ⟨HalfStream.new sw rcw1 true, ?_, rfl⟩
        rw [hm, mapFind_cons, if_pos rfl]

theorem terminate_connected_flag_true_witness :
    (StreamMap.mk [(2, StreamEnt.Open 0 0 ⟨500⟩ ⟨500⟩ 0)] 9).terminate 2 =
      TerminateResult.ok ShouldSendEnd.Send
        ⟨[(2, StreamEnt.EndSent (HalfStream.new ⟨500⟩ ⟨500⟩ true))], 9⟩ ∧
    ∃ hs,
      mapFind [(2, StreamEnt.EndSent (HalfStream.new ⟨500⟩ ⟨500⟩ true))] 2 =
        some (StreamEnt.EndSent hs) ∧ hs.connected_ok = true :=
  ⟨rfl,
   terminate_connected_flag_true ⟨[(2, StreamEnt.Open 0 0 ⟨500⟩ ⟨500⟩ 0)], 9⟩ 2
     ⟨[(2, StreamEnt.EndSent (HalfStream.new ⟨500⟩ ⟨500⟩ true))], 9⟩ rfl⟩

/-- C4: `add_ent` probes candidates starting from the current counter in
increasing order wrapping at the 16-bit boundary, skipping 0, advancing the
counter on every probe; the first currently-unused candidate receives a new
`Open` entry with dropped-cell count zero, the counter is left one past the
chosen identifier, and that identifier is returned; if all 65536 probes find
no free slot, the call fails with the address-space-exhausted error. -/
theorem add_ent_allocation_policy (sm : StreamMap) (sink rx : Nat)
    (sw : StreamSendWindow) (rcw : StreamRecvWindow)
    (hlt : sm.next_stream_id < 65536) :
    ((∀ j, j < 65536 → ¬ goodCandidate sm.m ((sm.next_stream_id + j) % 65536)) →
      sm.add_ent sink rx sw rcw =
        (Except.error Error.IdRangeFull,
          ⟨sm.m, (sm.next_stream_id + 65536) % 65536⟩)) ∧
    (∀ j0, j0 < 65536 → goodCandidate sm.m ((sm.next_stream_id + j0) % 65536) →
      (∀ j, j < j0 → ¬ goodCandidate sm.m ((sm.next_stream_id + j) % 65536)) →
      sm.add_ent sink rx sw rcw =
        (Except.ok ((sm.next_stream_id + j0) % 65536),
          ⟨((sm.next_stream_id + j0) % 65536, StreamEnt.Open sink rx sw rcw 0) :: sm.m,
            (sm.next_stream_id + j0 + 1) % 65536⟩)) := by
  constructor
  · intro hbad
    have hloop := add_ent_loop_all_bad sm.m (StreamEnt.Open sink rx sw rcw 0) 65536
      sm.next_stream_id hlt hbad
    simp only [StreamMap.add_ent]
    rw [hloop]
  · intro j0 hj0 hgood hbad
    have hloop := add_ent_loop_first_good sm.m (StreamEnt.Open sink rx sw rcw 0) j0 65536
      sm.next_stream_id hlt hj0 hgood hbad
    simp only [StreamMap.add_ent]
    rw [hloop]

theorem add_ent_allocation_policy_witness :
    (StreamMap.new 5).next_stream_id < 65536 ∧
    goodCandidate (StreamMap.new 5).m (((StreamMap.new 5).next_stream_id + 0) % 65536) ∧
    (StreamMap.new 5).add_ent 7 8 ⟨500⟩ ⟨500⟩ =
      (Except.ok (((StreamMap.new 5).next_stream_id + 0) % 65536),
        ⟨[(((StreamMap.new 5).next_stream_id + 0) % 65536,
            StreamEnt.Open 7 8 ⟨500⟩ ⟨500⟩ 0)],
          ((StreamMap.new 5).next_stream_id + 0 + 1) % 65536⟩) :=
  ⟨by decide, ⟨by decide, rfl⟩,
   (add_ent_allocation_policy (StreamMap.new 5) 7 8 ⟨500⟩ ⟨500⟩ (by decide)).2
     0 (by decide) ⟨by decide, rfl⟩ (fun j hj => absurd hj (Nat.not_lt_zero j))⟩

/-- C6: over any sequence of `add_ent` calls on one map, the identifiers
returned by the successful calls are pairwise distinct and none of them is
zero. -/
theorem add_ent_ids_distinct_nonzero
    (args : Nat → Nat × Nat × StreamSendWindow × StreamRecvWindow)
    (sm : StreamMap) (n : Nat) :
    (okIds (addSeq args sm n).2).Nodup ∧
    ∀ id ∈ okIds (addSeq args sm n).2, id ≠ 0 :=
  ⟨(addSeq_invariant args sm n).1, (addSeq_invariant args sm n).2.1⟩

/-- C10: a failed `add_ent` has no observable effect: the entry collection is
unchanged and the rotating counter has returned to its pre-call value, 65536
wrapping increments of a 16-bit counter being the identity. -/
theorem add_ent_failure_no_effect (sm : StreamMap) (sink rx : Nat)
    (sw : StreamSendWindow) (rcw : StreamRecvWindow)
    (hlt : sm.next_stream_id < 65536) (e : Error)
    (herr : (sm.add_ent sink rx sw rcw).1 = Except.error e) :
    (sm.add_ent sink rx sw rcw).2 = sm := by
  obtain ⟨mm, next⟩ := sm
  have hlt2 : next < 65536 := hlt
  simp only [StreamMap.add_ent] at herr ⊢
  have hinv := add_ent_loop_error_inv mm (StreamEnt.Open sink rx sw rcw 0) 65536 next
    hlt2 e herr
  rw [hinv]
  have hmod : (next + 65536) % 65536 = next := by omega
  rw [hmod]

theorem fullListAux_isSome : ∀ n x, 1 ≤ x → x ≤ n →
    (mapFind (fullListAux n) x).isSome := by
  intro n
  induction n with
  | zero => intro x h1 h2; omega
  | succ k ih =>
    intro x h1 h2
    rw [fullListAux, mapFind_cons]
    by_cases h : k + 1 = x
    · rw [if_pos h]; rfl
    · rw [if_neg h]
      exact ih x h1 (by omega)

theorem fullList_isSome (x : Nat) (h1 : 1 ≤ x) (h2 : x ≤ 65535) :
    (mapFind fullList x).isSome :=
  fullListAux_isSome 65535 x h1 h2

theorem fullList_all_bad (j : Nat) (_hj : j < 65536) :
    ¬ goodCandidate fullList ((1 + j) % 65536) := by
  intro hg
  obtain ⟨hnz, hvac⟩ := hg
  have hlt : (1 + j) % 65536 < 65536 := Nat.mod_lt _ (by omega)
  have h1 : 1 ≤ (1 + j) % 65536 := by omega
  have h2 : (1 + j) % 65536 ≤ 65535 := by omega
  have := fullList_isSome ((1 + j) % 65536) h1 h2
  rw [hvac] at this
  cases this

theorem add_ent_failure_no_effect_witness :
    (StreamMap.mk fullList 1).next_stream_id < 65536 ∧
    ((StreamMap.mk fullList 1).add_ent 0 0 ⟨500⟩ ⟨500⟩).1 =
      Except.error Error.IdRangeFull ∧
    ((StreamMap.mk fullList 1).add_ent 0 0 ⟨500⟩ ⟨500⟩).2 = StreamMap.mk fullList 1 := by
  have herr : ((StreamMap.mk fullList 1).add_ent 0 0 ⟨500⟩ ⟨500⟩).1 =
      Except.error Error.IdRangeFull := by
    rcases add_ent_char ⟨fullList, 1⟩ 0 0 ⟨500⟩ ⟨500⟩ with
      ⟨id, hok, hne, hvac, hm, hcnt, hbd⟩ | ⟨herr2, _⟩
    · have hid1 : id = 1 ∨ id < 65536 := hbd
      have h1 : 1 ≤ id := by omega
      have h2 : id ≤ 65535 := by rcases hid1 with h | h <;> omega
      have hsome := fullList_isSome id h1 h2
      rw [hvac] at hsome
      cases hsome
    · exact herr2
  have hlt : (StreamMap.mk fullList 1).next_stream_id < 65536 := by
    show (1 : Nat) < 65536
    omega
  exact ⟨hlt, herr,
    add_ent_failure_no_effect ⟨fullList, 1⟩ 0 0 ⟨500⟩ ⟨500⟩ hlt
      Error.IdRangeFull herr⟩

/-- C5 counterexample: from a fresh map whose initial counter is 65535, the
third successful allocation returns 2, while the claim's formula
`c + k - 1 (mod 65536)` evaluates to 1, which is nonzero, so the claim's
zero-adjustment does not apply and the claim predicts 1. -/
theorem kth_allocation_formula_cex :
    (addSeq (fun _ => (0, 0, ⟨500⟩, ⟨500⟩)) (StreamMap.new 65535) 3).2[3 - 1]? =
      some (Except.ok 2) ∧
    (65535 + 3 - 1) % 65536 = 1 ∧ (1 : Nat) ≠ 0 ∧ (2 : Nat) ≠ 1 :=
  ⟨by decide, by decide, by decide, by decide⟩

/-- C5 (amended): starting from a fresh map whose initial counter value is `c`
(a nonzero 16-bit value) and performing only `add_ent` calls, the k-th
successful allocation (1 ≤ k ≤ 65535) returns `((c + k - 2) mod 65535) + 1`:
the counter walks the cycle of the 65535 nonzero identifiers, so the result is
`c + k - 1 (mod 65536)` shifted one further for each time the candidate
sequence has passed the skipped value 0. -/
theorem kth_allocation_value
    (args : Nat → Nat × Nat × StreamSendWindow × StreamRecvWindow)
    (c k : Nat) (hc1 : 1 ≤ c) (hc : c ≤ 65535) (hk1 : 1 ≤ k) (hk : k ≤ 65535) :
    (addSeq args (StreamMap.new c) k).2[k - 1]? =
      some (Except.ok (((c + k - 2) % 65535) + 1)) := by
  rw [addSeq_fresh args c hc1 hc k hk]
  simp only
  rw [List.getElem?_map]
  have hlt : k - 1 < k := by omega
  rw [List.getElem?_range hlt]
  have hkk : k - 1 + 1 = k := by omega
  show some (Except.ok (eFun c (k - 1 + 1))) =
    some (Except.ok (((c + k - 2) % 65535) + 1))
  rw [hkk]
  rfl

theorem kth_allocation_value_witness :
    ((1 : Nat) ≤ 5 ∧ (5 : Nat) ≤ 65535 ∧ (1 : Nat) ≤ 2 ∧ (2 : Nat) ≤ 65535) ∧
    (addSeq (fun _ => (0, 0, ⟨500⟩, ⟨500⟩)) (StreamMap.new 5) 2).2[2 - 1]? =
      some (Except.ok (((5 + 2 - 2) % 65535) + 1)) :=
  ⟨⟨by decide, by decide, by decide, by decide⟩,
   kth_allocation_value (fun _ => (0, 0, ⟨500⟩, ⟨500⟩)) 5 2
     (by decide) (by decide) (by decide) (by decide)⟩

/-- C7: there is no path back from `EndReceived` or `EndSent` to `Open`: for
any single call to `add_ent`, `end_received`, or `terminate`, if the entry
tracked under an identifier is `EndReceived` or `EndSent` before the call,
then after the call the entry under that identifier is not `Open`. -/
theorem no_path_back_to_open (sm : StreamMap) (id : Nat)
    (h : mapFind sm.m id = some StreamEnt.EndReceived ∨
      ∃ hs, mapFind sm.m id = some (StreamEnt.EndSent hs)) :
    (∀ sink rx sw rcw ent,
      mapFind (sm.add_ent sink rx sw rcw).2.m id = some ent → ent.isOpen = false) ∧
    (∀ id2 ent,
      mapFind (sm.end_received id2).2.m id = some ent → ent.isOpen = false) ∧
    (∀ id2 r sm2, sm.terminate id2 = TerminateResult.ok r sm2 →
      ∀ ent, mapFind sm2.m id = some ent → ent.isOpen = false) ∧
    (∀ id2 e sm2, sm.terminate id2 = TerminateResult.err e sm2 →
      ∀ ent, mapFind sm2.m id = some ent → ent.isOpen = false) := by
  obtain ⟨ent0, hent0, hop0⟩ :
      ∃ ent0, mapFind sm.m id = some ent0 ∧ ent0.isOpen = false := by
    rcases h with h1 | ⟨hs, h1⟩
    · exact ⟨StreamEnt.EndReceived, h1, rfl⟩
    · exact ⟨StreamEnt.EndSent hs, h1, rfl⟩
  refine ⟨?_, ?_, ?_, ?_⟩
  · -- add_ent inserts only at a vacant identifier
    intro sink rx sw rcw ent hfind
    rcases add_ent_char sm sink rx sw rcw with ⟨nid, _, _, hvac, hm, _, _⟩ | ⟨_, hm⟩
    · rw [hm, mapFind_cons] at hfind
      have hne : ¬ nid = id := by
        intro hc
        rw [hc, hent0] at hvac
        cases hvac
      rw [if_neg hne, hent0] at hfind
      injection hfind with hinj
      rw [← hinj]
      exact hop0
    · rw [hm, hent0] at hfind
      injection hfind with hinj
      rw [← hinj]
      exact hop0
  · -- end_received
    intro id2 ent hfind
    by_cases hid : id2 = id
    · subst hid
      rcases h with hER | ⟨hs, hES⟩
      · have hmap : (sm.end_received id2).2 = sm := by
          simp [StreamMap.end_received, hER]
        rw [hmap, hER] at hfind
        injection hfind with hinj
        rw [← hinj]
        rfl
      · have hmap : (sm.end_received id2).2 = ⟨mapRemove sm.m id2, sm.next_stream_id⟩ := by
          simp [StreamMap.end_received, hES]
        rw [hmap] at hfind
        simp only at hfind
        rw [mapFind_remove_self] at hfind
        cases hfind
    · have hid2 : id ≠ id2 := fun hc => hid hc.symm
      have hpres : mapFind (sm.end_received id2).2.m id = mapFind sm.m id := by
        rcases hfind2 : mapFind sm.m id2 with _ | ent2
        · simp [StreamMap.end_received, hfind2]
        · cases ent2 with
          | EndReceived => simp [StreamMap.end_received, hfind2]
          | EndSent hs2 =>
            simp only [StreamMap.end_received, hfind2]
            exact mapFind_remove_other sm.m id2 id hid2
          | Open a b c d e =>
            simp only [StreamMap.end_received, hfind2]
            exact mapFind_replace_other sm.m id2 id StreamEnt.EndReceived hid2
      rw [hpres, hent0] at hfind
      injection hfind with hinj
      rw [← hinj]
      exact hop0
  · -- terminate, ordinary result
    intro id2 r sm2 hstep ent hfind
    rcases hfind2 : mapFind sm.m id2 with _ | ent2
    · simp [StreamMap.terminate, hfind2] at hstep
    · cases ent2 with
      | EndReceived =>
        simp only [StreamMap.terminate, hfind2] at hstep
        cases hstep
        by_cases hid : id2 = id
        · subst hid
          simp only at hfind
          rw [mapFind_remove_self] at hfind
          cases hfind
        · have hid2 : id ≠ id2 := fun hc => hid hc.symm
          simp only at hfind
          rw [mapFind_remove_other sm.m id2 id hid2, hent0] at hfind
          injection hfind with hinj
          rw [← hinj]
          exact hop0
      | Open a b swo rco dd =>
        rcases hdec : rco.decrement_n dd with e2 | rc1
        · simp [StreamMap.terminate, hfind2, hdec] at hstep
        · simp only [StreamMap.terminate, hfind2, hdec] at hstep
          cases hstep
          by_cases hid : id2 = id
          · subst hid
            rcases h with hER | ⟨hs, hES⟩
            · exact absurd (hER.symm.trans hfind2) (by simp)
            · exact absurd (hES.symm.trans hfind2) (by simp)
          · have hid2 : id ≠ id2 := fun hc => hid hc.symm
            simp only at hfind
            rw [mapFind_cons, if_neg hid,
              mapFind_remove_other sm.m id2 id hid2, hent0] at hfind
            injection hfind with hinj
            rw [← hinj]
            exact hop0
      | EndSent hs2 =>
        simp [StreamMap.terminate, hfind2] at hstep
  · -- terminate, error result
    intro id2 e sm2 hstep ent hfind
    rcases hfind2 : mapFind sm.m id2 with _ | ent2
    · simp only [StreamMap.terminate, hfind2] at hstep
      cases hstep
      rw [hent0] at hfind
      injection hfind with hinj
      rw [← hinj]
      exact hop0
    · cases ent2 with
      | EndReceived =>
        simp [StreamMap.terminate, hfind2] at hstep
      | Open a b swo rco dd =>
        rcases hdec : rco.decrement_n dd with e2 | rc1
        · simp only [StreamMap.terminate, hfind2, hdec] at hstep
          cases hstep
          by_cases hid : id2 = id
          · subst hid
            rcases h with hER | ⟨hs, hES⟩
            · exact absurd (hER.symm.trans hfind2) (by simp)
            · exact absurd (hES.symm.trans hfind2) (by simp)
          · have hid2 : id ≠ id2 := fun hc => hid hc.symm
            simp only at hfind
            rw [mapFind_remove_other sm.m id2 id hid2, hent0] at hfind
            injection hfind with hinj
            rw [← hinj]
            exact hop0
        · simp [StreamMap.terminate, hfind2, hdec] at hstep
      | EndSent hs2 =>
        simp [StreamMap.terminate, hfind2] at hstep

theorem no_path_back_to_open_witness :
    mapFind [(4, StreamEnt.EndReceived)] 4 = some StreamEnt.EndReceived ∧
    StreamEnt.EndReceived.isOpen = false :=
  ⟨rfl,
   (no_path_back_to_open ⟨[(4, StreamEnt.EndReceived)], 7⟩ 4 (Or.inl rfl)).2.1
     4 StreamEnt.EndReceived rfl⟩

/-- C8: in every map state reachable from `new()` by any sequence of
`add_ent`, `get_mut`, `end_received`, and `terminate` calls, the identifier 0
never appears as a key of the map. -/
theorem reachable_zero_not_key (sm : StreamMap) (h : Reachable sm) :
    ∀ p ∈ sm.m, p.1 ≠ 0 := by
  induction h with
  | new init h0 hlt =>
    intro p hp
    simp [StreamMap.new] at hp
  | add_ent sm sink rx sw rcw hr ih =>
    intro p hp
    rcases add_ent_char sm sink rx sw rcw with ⟨nid, _, hnz, _, hm, _, _⟩ | ⟨_, hm⟩
    · rw [hm] at hp
      rcases List.mem_cons.mp hp with h1 | h1
      · rw [h1]
        exact hnz
      · exact ih p h1
    · rw [hm] at hp
      exact ih p hp
  | get_mut sm id hr ih => exact ih
  | end_received sm id hr ih =>
    intro p hp
    rcases hfind : mapFind sm.m id with _ | ent
    · have hm : (sm.end_received id).2 = sm := by simp [StreamMap.end_received, hfind]
      rw [hm] at hp
      exact ih p hp
    · cases ent with
      | EndReceived =>
        have hm : (sm.end_received id).2 = sm := by simp [StreamMap.end_received, hfind]
        rw [hm] at hp
        exact ih p hp
      | EndSent hs =>
        have hm : (sm.end_received id).2 = ⟨mapRemove sm.m id, sm.next_stream_id⟩ := by
          simp [StreamMap.end_received, hfind]
        rw [hm] at hp
        exact ih p (mem_mapRemove sm.m id p hp)
      | Open a b c d e =>
        have hm : (sm.end_received id).2 =
            ⟨mapReplace sm.m id StreamEnt.EndReceived, sm.next_stream_id⟩ := by
          simp [StreamMap.end_received, hfind]
        rw [hm] at hp
        obtain ⟨q, hq, hkey⟩ := mem_mapReplace sm.m id StreamEnt.EndReceived p hp
        rw [hkey]
        exact ih q hq
  | terminate_ok sm id r sm2 hr hstep ih =>
    intro p hp
    rcases hfind : mapFind sm.m id with _ | ent
    · simp [StreamMap.terminate, hfind] at hstep
    · cases ent with
      | EndReceived =>
        simp only [StreamMap.terminate, hfind] at hstep
        cases hstep
        exact ih p (mem_mapRemove sm.m id p hp)
      | Open a b swo rco dd =>
        rcases hdec : rco.decrement_n dd with e2 | rc1
        · simp [StreamMap.terminate, hfind, hdec] at hstep
        · simp only [StreamMap.terminate, hfind, hdec] at hstep
          cases hstep
          rcases List.mem_cons.mp hp with h1 | h1
          · rw [h1]
            have hmem := mapFind_some_mem sm.m id _ hfind
            exact ih (id, StreamEnt.Open a b swo rco dd) hmem
          · exact ih p (mem_mapRemove sm.m id p h1)
      | EndSent hs =>
        simp [StreamMap.terminate, hfind] at hstep
  | terminate_err sm id e sm2 hr hstep ih =>
    intro p hp
    rcases hfind : mapFind sm.m id with _ | ent
    · simp only [StreamMap.terminate, hfind] at hstep
      cases hstep
      exact ih p hp
    · cases ent with
      | EndReceived =>
        simp [StreamMap.terminate, hfind] at hstep
      | Open a b swo rco dd =>
        rcases hdec : rco.decrement_n dd with e2 | rc1
        · simp only [StreamMap.terminate, hfind, hdec] at hstep
          cases hstep
          exact ih p (mem_mapRemove sm.m id p hp)
        · simp [StreamMap.terminate, hfind, hdec] at hstep
      | EndSent hs =>
        simp [StreamMap.terminate, hfind] at hstep

theorem reachable_zero_not_key_witness :
    Reachable ((StreamMap.new 5).add_ent 0 0 ⟨500⟩ ⟨500⟩).2 ∧
    (5, StreamEnt.Open 0 0 ⟨500⟩ ⟨500⟩ 0).1 ≠ 0 :=
  ⟨Reachable.add_ent (StreamMap.new 5) 0 0 ⟨500⟩ ⟨500⟩
     (Reachable.new 5 (by decide) (by decide)),
   reachable_zero_not_key ((StreamMap.new 5).add_ent 0 0 ⟨500⟩ ⟨500⟩).2
     (Reachable.add_ent (StreamMap.new 5) 0 0 ⟨500⟩ ⟨500⟩
       (Reachable.new 5 (by decide) (by decide)))
     (5, StreamEnt.Open 0 0 ⟨500⟩ ⟨500⟩ 0) (by decide)⟩

end Streammap
